import Mathlib

/-
Verification development for the subagent orchestration core of nanobot
(src/nanobot/agent/subagent.py).  The Python code is shallowly embedded:

* Python strings are `List Char` (so slicing `s[:n]` is `List.take n`).
* `datetime` timestamps are `Int` (seconds); `timedelta(hours=1)` is `3600`.
* The manager's dictionaries (`_task_states`, `_parallel_groups`), which are
  insertion-ordered in Python, are association lists.
* The cooperative asyncio concurrency of one task's execution unit
  (`_run_subagent`) together with external `cancel` calls is embedded as a
  small-step event system: interleaving can occur exactly at the `await`
  suspension points of the coroutine, and between two suspension points the
  coroutine's registry updates are atomic (single-threaded event loop).
-/

namespace Nanobot

/-- Python `str` as a list of code points. -/
abbrev Str := List Char

/-- Statuses of `SubagentTask.status` (subagent.py line 29): running, completed,
failed, cancelled. -/
inductive Status where
  | running
  | completed
  | failed
  | cancelled
deriving DecidableEq, Repr

/-- The state-tracking fields of `SubagentTask` (subagent.py lines 22-37)
that the claims are about.  `completed_at` is `None` until a terminal
transition; `result` and `error` start as `None`. -/
structure TaskRec where
  status : Status := .running
  result : Option Str := none
  error : Option Str := none
  completed_at : Option Int := none
deriving DecidableEq, Repr

/- ----------------------------------------------------------------------
Layer A: the pure execution loop of `_run_subagent` (lines 219-283).
The external completion provider is an oracle `rounds : Nat -> Round`
giving, for each loop pass, either a response or a raised exception
(covering provider and tool errors inside the loop body).
---------------------------------------------------------------------- -/

/-- One tool call of a provider response (only its presence matters here). -/
structure ToolCall where
  name : Str := []
deriving DecidableEq, Repr

/-- A provider response (`response` in the loop body):
`content` and the `tool_calls` list.  `has_tool_calls` is true iff the
list is non-empty. -/
structure ChatResponse where
  content : Option Str := none
  tool_calls : List ToolCall := []
deriving DecidableEq, Repr

/-- Python `response.has_tool_calls`. -/
def ChatResponse.has_tool_calls (r : ChatResponse) : Bool :=
  !r.tool_calls.isEmpty

/-- What one pass of the loop body observes from the outside world:
either the provider returns a response, or an exception is raised
somewhere in the pass (provider call or tool execution). -/
inductive Round where
  | resp (r : ChatResponse)
  | raised (msg : Str)
deriving DecidableEq, Repr

/-- A round that is a response with tool calls (the loop continues). -/
def isToolResp : Round → Bool
  | .resp r => r.has_tool_calls
  | .raised _ => false

/-- The bound `max_iterations = 15` (line 220). -/
def max_iterations : Nat := 15

/-- The synthesized result used when the loop ends without a final answer
(line 275). -/
def defaultFinal : Str := ("Task completed but no final response was generated.".toList)

/-- Outcome of the `while` loop: either the loop exits (with the number of
completed passes and `final_result`, which is `none` when the iteration cap
was reached or the final response had no content), or an exception
propagates out of a pass. -/
inductive LoopOut where
  | finished (iterations : Nat) (final : Option Str)
  | excepted (iterations : Nat) (msg : Str)
deriving DecidableEq, Repr

/-- The `while iteration < max_iterations` loop (lines 224-272), with
`fuel = max_iterations - iteration` and `it` the number of passes done.
Pass `it` (0-based) consumes `rounds it`:
a response with tool calls executes them and continues; a response
without tool calls sets `final_result` and breaks; a raised exception
aborts the loop. -/
def loopGo (rounds : Nat → Round) : Nat → Nat → LoopOut
  | 0, it => .finished it none
  | fuel + 1, it =>
    match rounds it with
    | .raised m => .excepted (it + 1) m
    | .resp r =>
      if r.has_tool_calls then loopGo rounds fuel (it + 1)
      else .finished (it + 1) r.content

/-- The full loop started at `iteration = 0`. -/
def agentLoop (rounds : Nat → Round) : LoopOut :=
  loopGo rounds max_iterations 0

/-- Number of loop passes recorded in a `LoopOut`. -/
def LoopOut.iterations : LoopOut → Nat
  | .finished n _ => n
  | .excepted n _ => n

/-- Finalization of `_run_subagent` when the coroutine is neither cancelled
nor interrupted by an announcement failure (lines 274-283 and 294-300),
run at wall-clock time `t`:
on loop exit, `final_result` defaults to `defaultFinal`, the task is
finalized `completed` and `result` stores the first 1000 characters
(line 283, `final_result[:1000]`); on an exception `e`, the task is
finalized `failed` with `error = f"Error: {e}"[:500]` (lines 295-300). -/
def run_subagent (rounds : Nat → Round) (t : Int) : TaskRec :=
  match agentLoop rounds with
  | .finished _ final =>
    let fr := final.getD defaultFinal
    { status := .completed, completed_at := some t,
      result := some (fr.take 1000), error := none }
  | .excepted _ m =>
    { status := .failed, completed_at := some t,
      result := none, error := some (("Error: ".toList ++ m).take 500) }

/- ----------------------------------------------------------------------
Layer B: the lifecycle of one task's execution unit interleaved with
external `SubagentManager.cancel` calls (lines 154-168 and 170-301),
under asyncio's cooperative scheduling.  The coroutine can only be
interrupted while suspended at an `await`; `Task.cancel()` makes that
pending `await` raise `CancelledError` when the coroutine next resumes.
---------------------------------------------------------------------- -/

/-- Where the `_run_subagent` coroutine currently is:

* `looping`    : inside the agent loop (suspended at a provider/tool await);
* `annOk`      : suspended in `_announce_result` at line 285, inside the
                 `try` block, after the `completed` finalization;
* `annErr`     : suspended in `_announce_result` at line 301, inside the
                 `except Exception` handler, after a `failed` finalization;
* `annCancel`  : suspended in `_announce_result` at line 293, inside the
                 `except asyncio.CancelledError` handler;
* `ended`      : the coroutine has finished, but the `cleanup` done-callback
                 (lines 134-138, scheduled via `call_soon`) has not run yet,
                 so the id is still a key of `_running_tasks`;
* `torn`       : `cleanup` has removed the id from `_running_tasks`. -/
inductive Phase where
  | looping
  | annOk
  | annErr
  | annCancel
  | ended
  | torn
deriving DecidableEq, Repr

/-- The observable state of one task: the coroutine phase, whether a
`Task.cancel()` signal is pending delivery (a `CancelledError` will be
raised at the next resume and consumed there), and the task's registry
record in `_task_states`. -/
structure UnitState where
  phase : Phase := .looping
  pendingCancel : Bool := false
  entry : TaskRec := {}
deriving DecidableEq, Repr

/-- Freshly spawned task: registry record created with `status="running"`
(lines 112-120), coroutine scheduled, id inserted into `_running_tasks`
(line 131). -/
def initUnit : UnitState := {}

/-- Return value of `SubagentManager.cancel` (lines 156-158): `True` iff the
id is still a key of `_running_tasks`. -/
def cancelRet (s : UnitState) : Bool :=
  s.phase != .torn

/-- Message `error = "Cancelled by user"` written by `cancel` (line 165). -/
def cancelByUserMsg : Str := ("Cancelled by user".toList)

/-- Message `error = "Cancelled"` written by the `CancelledError` handler
(line 292). -/
def cancelledMsg : Str := ("Cancelled".toList)

/-- Events that can hit one task's state.  Interleaving is possible exactly
at suspension points, so each event is one atomic step of the event loop:

* `iterate`        : one loop pass whose response requested tools;
* `finishOk r t`   : the loop ended (final answer `r`, or the synthesized
                     result at the iteration cap); lines 274-283 finalize
                     `completed` and the coroutine suspends in the success
                     announcement;
* `finishErr e t`  : an exception in a loop pass; lines 294-300 finalize
                     `failed` (truncated message) and the coroutine
                     suspends in the failure announcement;
* `observeCancel t`: the pending `CancelledError` is delivered at the
                     coroutine's current suspension point and consumed;
* `announceOk`     : the pending `_announce_result` returns normally;
* `announceRaise e t` : the pending `_announce_result` raises an exception
                     (e.g. the bus publish fails);
* `cancelCall t`   : another coroutine runs `SubagentManager.cancel`
                     (lines 154-168);
* `teardown`       : the `cleanup` done-callback runs (lines 134-138). -/
inductive Ev where
  | iterate
  | finishOk (r : Str) (t : Int)
  | finishErr (e : Str) (t : Int)
  | observeCancel (t : Int)
  | announceOk
  | announceRaise (e : Str) (t : Int)
  | cancelCall (t : Int)
  | teardown
deriving DecidableEq, Repr

/-- One atomic step.  `none` means the event is not enabled in this state.

Enabledness notes, all forced by the code and by asyncio semantics:
* loop-pass events (`iterate`, `finishOk`, `finishErr`) require no pending
  cancellation, because a pending `Task.cancel()` makes the suspended
  provider/tool await raise `CancelledError` instead of resuming normally;
* likewise a pending announcement (`announceOk`/`announceRaise`) can only
  resolve normally when no cancellation is pending;
* `observeCancel` from `annOk` lands in the `except asyncio.CancelledError`
  handler (line 287) like from the loop; from `annErr` or `annCancel` the
  `CancelledError` is raised inside an `except` handler body, is caught by
  nothing, and ends the coroutine with the record unchanged;
* `cancelCall` always sets the registry record to `cancelled` when the id
  is in `_running_tasks` (lines 160-165) — the code does not look at the
  current status, and `Task.cancel()`'s own return value is ignored;
* `teardown` only runs after the coroutine has ended. -/
def stepEv (s : UnitState) : Ev → Option UnitState
  | .iterate =>
    if s.phase = .looping ∧ s.pendingCancel = false then some s else none
  | .finishOk r t =>
    if s.phase = .looping ∧ s.pendingCancel = false then
      some { s with phase := .annOk,
                    entry := { s.entry with
                      status := .completed,
                      completed_at := some t,
                      result := some (r.take 1000) } }
    else none
  | .finishErr e t =>
    if s.phase = .looping ∧ s.pendingCancel = false then
      some { s with phase := .annErr,
                    entry := { s.entry with
                      status := .failed,
                      completed_at := some t,
                      error := some (("Error: ".toList ++ e).take 500) } }
    else none
  | .observeCancel t =>
    if s.pendingCancel = true then
      match s.phase with
      | .looping =>
        some { s with phase := .annCancel, pendingCancel := false,
                      entry := { s.entry with
                        status := .cancelled,
                        completed_at := some t,
                        error := some cancelledMsg } }
      | .annOk =>
        some { s with phase := .annCancel, pendingCancel := false,
                      entry := { s.entry with
                        status := .cancelled,
                        completed_at := some t,
                        error := some cancelledMsg } }
      | .annErr => some { s with phase := .ended, pendingCancel := false }
      | .annCancel => some { s with phase := .ended, pendingCancel := false }
      | _ => none
    else none
  | .announceOk =>
    if (s.phase = .annOk ∨ s.phase = .annErr ∨ s.phase = .annCancel) ∧
        s.pendingCancel = false then
      some { s with phase := .ended }
    else none
  | .announceRaise e t =>
    if s.pendingCancel = false then
      match s.phase with
      | .annOk =>
        -- the exception from line 285 is caught by `except Exception` at
        -- line 294, which re-finalizes the record as failed (result is
        -- not touched) and suspends in the failure announcement
        some { s with phase := .annErr,
                      entry := { s.entry with
                        status := .failed,
                        completed_at := some t,
                        error := some (("Error: ".toList ++ e).take 500) } }
      | .annErr => some { s with phase := .ended }
      | .annCancel => some { s with phase := .ended }
      | _ => none
    else none
  | .cancelCall t =>
    if s.phase = .torn then
      -- id not in `_running_tasks`: return False, no state change
      some s
    else
      -- id found: `task.cancel()` plus the optimistic record update
      some { s with pendingCancel := true,
                    entry := { s.entry with
                      status := .cancelled,
                      completed_at := some t,
                      error := some cancelByUserMsg } }
  | .teardown =>
    if s.phase = .ended then some { s with phase := .torn } else none

/-- Run a list of events from a given state; fails if any event is not
enabled. -/
def runFrom (s : UnitState) : List Ev → Option UnitState
  | [] => some s
  | e :: es =>
    match stepEv s e with
    | none => none
    | some s1 => runFrom s1 es

/-- Run a list of events from the just-spawned state. -/
def runEv (evs : List Ev) : Option UnitState :=
  runFrom initUnit evs

/- ----------------------------------------------------------------------
Layer C: the manager's registry-level operations — `cancel` (154-168),
`get_running_tasks` (143-152), `create_parallel_group` (518-564), the
timeout branch of `await_group` (595-599), and `spawn_chain` (455-509).
Task ids are modelled as `Nat` allocated from a fresh counter (standing in
for `uuid.uuid4()[:8]`, whose whole point is freshness); group ids keep
their Python type, `String`.
---------------------------------------------------------------------- -/

/-- Lookup in an insertion-ordered dictionary modelled as an association
list (`d.get(k)`). -/
def lookupA {β : Type} : List (Nat × β) → Nat → Option β
  | [], _ => none
  | kv :: rest, k => if kv.1 = k then some kv.2 else lookupA rest k

/-- Lookup for the `String`-keyed group dictionary. -/
def lookupG {β : Type} : List (String × β) → String → Option β
  | [], _ => none
  | kv :: rest, k => if kv.1 = k then some kv.2 else lookupG rest k

/-- Python `d[k] = v`: replace the value at the (unique) existing key in
place, keeping its position, else append the new pair at the end. -/
def setG {β : Type} : List (String × β) → String → β → List (String × β)
  | [], k, v => [(k, v)]
  | kv :: rest, k, v => if kv.1 = k then (k, v) :: rest else kv :: setG rest k v

/-- The manager state: the keys of `_running_tasks` (the asyncio task
objects themselves carry no registry data), the `_task_states` dictionary,
the `_parallel_groups` dictionary, and the id-allocation counter. -/
structure MgrState where
  running_tasks : List Nat := []
  task_states : List (Nat × TaskRec) := []
  parallel_groups : List (String × List Nat) := []
  next_id : Nat := 0
deriving DecidableEq, Repr

/-- Status of a task as seen through `_task_states`. -/
def statusOf (s : MgrState) (tid : Nat) : Option Status :=
  (lookupA s.task_states tid).map (fun v => v.status)

/-- Operation `SubagentManager.cancel` (lines 154-168) at wall-clock time `t`.
Returns `False` and leaves everything unchanged when the id is not a key
of `_running_tasks`; otherwise calls `task.cancel()` (no registry effect),
then — if the id is in `_task_states` — overwrites that entry's `status`,
`completed_at` and `error`, and returns `True`.  The id is *not* removed
from `_running_tasks` (that happens later, in the done-callback). -/
def mgrCancel (s : MgrState) (tid : Nat) (t : Int) : Bool × MgrState :=
  if s.running_tasks.contains tid then
    (true,
     { s with task_states := s.task_states.map (fun kv =>
         if kv.1 = tid then
           (kv.1, { kv.2 with status := .cancelled,
                              completed_at := some t,
                              error := some cancelByUserMsg })
         else kv) })
  else (false, s)

/-- The retention predicate of `get_running_tasks` (line 150): an entry is
kept iff `v.status == "running" or v.completed_at and v.completed_at >
cutoff` with `cutoff = now - 1 hour`.  (`v.completed_at and ...` is Python
truthiness: a `None` timestamp fails the test.) -/
def keepEntry (t : Int) (v : TaskRec) : Bool :=
  if v.status = .running then true
  else match v.completed_at with
    | none => false
    | some c => decide (t - 3600 < c)

/-- Operation `SubagentManager.get_running_tasks` (lines 143-152) at time `t`:
rebuilds `_task_states` keeping only retained entries, then returns the
values of the rebuilt dictionary.  Note the rebuild is a *mutation* of the
registry, so this listing is not a pure snapshot. -/
def get_running_tasks (s : MgrState) (t : Int) : List TaskRec × MgrState :=
  let ts := s.task_states.filter (fun kv => keepEntry t kv.2)
  (ts.map (fun kv => kv.2), { s with task_states := ts })

/-- A task specification as passed to `spawn` /
`create_parallel_group` / `spawn_chain` (only the fields the claims

need). -/
structure SpawnSpec where
  task : Str := []
  label : Str := []
deriving DecidableEq, Repr

/-- The registry effect of `spawn` (lines 98-131): allocate a fresh id,
insert a `running` record into `_task_states`, insert the id into
`_running_tasks`.  Returns the new state and the id (which the caller
`create_parallel_group` recovers from the returned message via the
regex at line 557). -/
def spawnOne (s : MgrState) : MgrState × Nat :=
  let tid := s.next_id
  ({ s with task_states := s.task_states ++ [(tid, {})],
            running_tasks := s.running_tasks ++ [tid],
            next_id := tid + 1 }, tid)

/-- Operation `SubagentManager.create_parallel_group` (lines 518-564): spawn every
spec, collect the task ids, then set `_parallel_groups[group_id] :=
task_ids` *unconditionally* — the code contains no check whether
`group_id` is already a key, and no exception path. -/
def create_parallel_group (s : MgrState) (gid : String) (specs : List SpawnSpec) :
    MgrState × List Nat :=
  let p := specs.foldl (fun (acc : MgrState × List Nat) _ =>
      let q := spawnOne acc.1
      (q.1, acc.2 ++ [q.2])) (s, [])
  ({ p.1 with parallel_groups := setG p.1.parallel_groups gid p.2 }, p.2)

/-- The `except asyncio.TimeoutError` branch of `await_group`
(lines 595-599): `for tid in task_ids: await self.cancel(tid)`.
`cancel` contains no suspension point, so the loop is atomic. -/
def cancelAllL (s : MgrState) (tids : List Nat) (t : Int) : MgrState :=
  tids.foldl (fun st tid => (mgrCancel st tid t).2) s

/-- Operation `await_group` when the timeout elapses (lines 581-599): `ValueError`
(`none`) if the group id is unknown; otherwise every member id is
cancelled and then `asyncio.TimeoutError` is re-raised — the returned
state is the registry at the moment the error propagates to the caller. -/
def await_group_on_timeout (s : MgrState) (gid : String) (t : Int) : Option MgrState :=
  match lookupG s.parallel_groups gid with
  | none => none
  | some tids => some (cancelAllL s tids t)

/-- The registry invariant maintained by the code: a task whose recorded
status is `running` is always a key of `_running_tasks` (spawn inserts
into both maps with no suspension point in between, every coroutine path
finalizes the status to a terminal value before the done-callback removes
the id, and pruning never drops a running entry). -/
def regInv (s : MgrState) : Bool :=
  s.task_states.all (fun kv =>
    if kv.2.status = .running then s.running_tasks.contains kv.1 else true)

/-- A chain step specification (`spawn_chain`, lines 463-468):
task text and the `use_result` flag. -/
structure ChainSpec where
  task : Str := []
  use_result : Bool := false
deriving DecidableEq, Repr

/-- Description actually given to step `i` of a chain (lines 484-485):
`if use_result and previous_result:` — Python truthiness, so `None` *and*
the empty string both skip the contextualization. -/
def chainDesc (prev : Option Str) (sp : ChainSpec) : Str :=
  match prev with
  | none => sp.task
  | some p =>
    if sp.use_result ∧ p ≠ [] then
      ("Previous result:\n".toList) ++ p ++ ("\n\nNew task:\n".toList) ++ sp.task
    else sp.task

/-- Operation `SubagentManager.spawn_chain` (lines 455-509).  Each iteration spawns
the next spec (with the contextualized description) and blocks on it via
`await_agent`; the finalized record the step settles to is supplied by the
oracle `outcome : Nat -> Str -> TaskRec` (step index and description to
awaited `SubagentTask`).  The record is appended to `completed`; when its
status is `"completed"` its `result` becomes `previous_result` for the
next step, otherwise the loop breaks — later specs are never spawned. -/
def spawn_chain_go (outcome : Nat → Str → TaskRec) :
    List ChainSpec → Nat → Option Str → List TaskRec × Nat
  | [], _, _ => ([], 0)
  | sp :: rest, i, prev =>
    let r := outcome i (chainDesc prev sp)
    if r.status = .completed then
      let q := spawn_chain_go outcome rest (i + 1) r.result
      (r :: q.1, q.2 + 1)
    else ([r], 1)

/-- The records returned by `spawn_chain` (`completed` at line 509),
started with no previous result. -/
def spawn_chain (specs : List ChainSpec) (outcome : Nat → Str → TaskRec) :
    List TaskRec :=
  (spawn_chain_go outcome specs 0 none).1

/-- Number of specs actually spawned by a chain run: the loop performs
exactly one `spawn` (line 488) per iteration, counted in the second
component of `spawn_chain_go`. -/
def spawn_chain_count (specs : List ChainSpec) (outcome : Nat → Str → TaskRec) : Nat :=
  (spawn_chain_go outcome specs 0 none).2

/-- Invariant of the single-task event system, established at spawn and
preserved by every step; the conjuncts are exactly what the reachability
arguments below need. -/
def UInv (s : UnitState) : Prop :=
  (s.phase = .looping → s.pendingCancel = false → s.entry.status = .running) ∧
  (s.pendingCancel = true → s.entry.status = .cancelled) ∧
  (s.phase = .annOk → s.pendingCancel = false → s.entry.status = .completed) ∧
  (s.entry.status = .running → s.entry.result = none ∧ s.entry.error = none) ∧
  (s.entry.status = .completed → s.entry.result ≠ none ∧ s.entry.error = none) ∧
  ((s.entry.status = .failed ∨ s.entry.status = .cancelled) → s.entry.error ≠ none)

/-- A provider answer of 1001 characters, longer than the 1000-character
result cap of line 283. -/
def longAns : Str := List.replicate 1001 'a'

/-- A provider that immediately answers with `longAns` (no tool calls). -/
def longAnsRounds : Nat → Round :=
  fun _ => .resp { content := some longAns, tool_calls := [] }

/-- A provider that always requests tools, so the loop hits the iteration
cap. -/
def toolsForeverRounds : Nat → Round :=
  fun _ => .resp { content := none, tool_calls := [{}] }

/-- A concrete registry for the group-timeout claim: task 1 still running
(and in `_running_tasks`), task 2 already finalized `completed`, group
`"g"` containing both. -/
def grpState : MgrState :=
  { running_tasks := [1],
    task_states :=
      [(1, {}),
       (2, { status := .completed, completed_at := some 0,
             result := some ("x".toList) })],
    parallel_groups := [("g", [1, 2])],
    next_id := 3 }

/-- A concrete registry with group `"g"` already in use (members `[0]`). -/
def dupGrpState : MgrState :=
  { parallel_groups := [("g", [0])], next_id := 5 }

/-- A three-step chain `[A, B, C]`. -/
def chainABC : List ChainSpec :=
  [{ task := ("A".toList) }, { task := ("B".toList) }, { task := ("C".toList) }]

/-- Outcomes for `chainABC`: step 0 finalizes `completed`, step 1
finalizes `failed`, step 2 would finalize `completed` were it spawned. -/
def chainOutcomeBFails : Nat → Str → TaskRec :=
  fun i _ =>
    if i = 1 then { status := .failed, error := some ("e".toList), completed_at := some 1 }
    else { status := .completed, result := some ("r".toList), completed_at := some 1 }

/-- A concrete registry for the pruning claim at `now = 10000`: task 1
running, task 2 completed 10000 s ago (past the 3600 s window), task 3
completed 2000 s ago (inside the window). -/
def pruneState : MgrState :=
  { task_states :=
      [(1, {}),
       (2, { status := .completed, completed_at := some 0 }),
       (3, { status := .completed, completed_at := some 8000 })] }

/- ----------------------------------------------------------------------
Theorems.  Each claim theorem is marked with its claim id.
---------------------------------------------------------------------- -/

theorem loopGo_iterations_le (rounds : Nat → Round) :
    ∀ fuel it, (loopGo rounds fuel it).iterations ≤ it + fuel := by
  intro fuel
  induction fuel with
  | zero => intro it; simp [loopGo, LoopOut.iterations]
  | succ f ih =>
    intro it
    simp only [loopGo]
    cases rounds it with
    | raised m => simp only [LoopOut.iterations]; omega
    | resp r =>
      by_cases h : r.has_tool_calls
      · simp only [h, if_true]
        have := ih (it + 1)
        omega
      · simp only [h, Bool.false_eq_true, if_false, LoopOut.iterations]; omega

theorem loopGo_all_tools (rounds : Nat → Round) :
    ∀ fuel it, (∀ j, j < fuel → isToolResp (rounds (it + j)) = true) →
      loopGo rounds fuel it = .finished (it + fuel) none := by
  intro fuel
  induction fuel with
  | zero => intro it _; simp [loopGo]
  | succ f ih =>
    intro it h
    have h0 : isToolResp (rounds it) = true := by
      have := h 0 (by omega)
      simpa using this
    simp only [loopGo]
    cases hr : rounds it with
    | raised m => rw [hr] at h0; simp [isToolResp] at h0
    | resp r =>
      have htc : r.has_tool_calls = true := by
        rw [hr] at h0; simpa [isToolResp] using h0
      simp only [htc, if_true]
      have := ih (it + 1) (fun j hj => by
        have := h (j + 1) (by omega)
        simpa [Nat.add_assoc, Nat.add_comm 1 j] using this)
      rw [this]
      congr 1
      omega

theorem loopGo_first_answer (rounds : Nat → Round) (r : ChatResponse) :
    ∀ k fuel it, k < fuel →
      (∀ j, j < k → isToolResp (rounds (it + j)) = true) →
      rounds (it + k) = .resp r → r.has_tool_calls = false →
      loopGo rounds fuel it = .finished (it + k + 1) r.content := by
  intro k
  induction k with
  | zero =>
    intro fuel it hk _ hresp htc
    cases fuel with
    | zero => omega
    | succ f =>
      simp only [loopGo]
      rw [show it + 0 = it from rfl] at hresp
      rw [hresp]
      simp [htc]
  | succ k ih =>
    intro fuel it hk htools hresp htc
    cases fuel with
    | zero => omega
    | succ f =>
      have h0 : isToolResp (rounds it) = true := by
        have := htools 0 (by omega)
        simpa using this
      simp only [loopGo]
      cases hr : rounds it with
      | raised m => rw [hr] at h0; simp [isToolResp] at h0
      | resp r0 =>
        have htc0 : r0.has_tool_calls = true := by
          rw [hr] at h0; simpa [isToolResp] using h0
        simp only [htc0, if_true]
        have hres := ih f (it + 1) (by omega)
          (fun j hj => by
            have := htools (j + 1) (by omega)
            simpa [Nat.add_assoc, Nat.add_comm 1 j] using this)
          (by rw [show it + 1 + k = it + (k + 1) by omega]; exact hresp)
          htc
        rw [hres]
        congr 1
        omega

/-- Claim C9: for every behavior of the completion provider, the
execution loop of `_run_subagent` performs at most 15 iterations, and when
the first 15 responses all request tool calls (the cap is reached without
a final answer) the task is finalized with status `completed` — not
`failed` — and the synthesized explanatory string as its result. -/
theorem C9_iteration_cap (rounds : Nat → Round) (t : Int) :
    (agentLoop rounds).iterations ≤ 15 ∧
    ((∀ j, j < 15 → isToolResp (rounds j) = true) →
      run_subagent rounds t =
        { status := .completed, completed_at := some t,
          result := some defaultFinal, error := none }) := by
  constructor
  · have := loopGo_iterations_le rounds max_iterations 0
    simpa [agentLoop, max_iterations] using this
  · intro h
    have hl : agentLoop rounds = .finished 15 none := by
      have := loopGo_all_tools rounds 15 0 (fun j hj => by simpa using h j hj)
      simpa [agentLoop, max_iterations] using this
    simp only [run_subagent, hl]
    have : (defaultFinal.take 1000) = defaultFinal := by decide
    simp [Option.getD, this]

/-- Witness for C9 at a concrete provider that always requests tools. -/
theorem C9_witness :
    (agentLoop toolsForeverRounds).iterations ≤ 15 ∧
    run_subagent toolsForeverRounds 7 =
      { status := .completed, completed_at := some 7,
        result := some defaultFinal, error := none } :=
  ⟨(C9_iteration_cap toolsForeverRounds 7).1,
   (C9_iteration_cap toolsForeverRounds 7).2 (by decide)⟩

/-- Claim C8, counterexample: a final answer of 1001 characters is stored
truncated — the task is finalized `completed` but its stored `result` is
*not* equal to the answer string (line 283 stores `final_result[:1000]`),
refuting the claim as stated. -/
theorem C8_counterexample :
    (run_subagent longAnsRounds 0).status = .completed ∧
    (run_subagent longAnsRounds 0).result ≠ some longAns := by
  have h : run_subagent longAnsRounds 0 =
      { status := .completed, completed_at := some 0,
        result := some (longAns.take 1000), error := none } := rfl
  constructor
  · rw [h]
  · rw [h]
    intro hc
    have h2 : longAns.take 1000 = longAns := by
      simpa using hc
    have h3 := congrArg List.length h2
    rw [List.length_take] at h3
    have hlen : longAns.length = 1001 := by
      unfold longAns
      rw [List.length_replicate]
    rw [hlen] at h3
    omega

/-- Claim C8 (amended): when the completion provider returns a final
answer (a response with no tool calls) within the iteration budget, the
task is finalized as `completed` and its stored `result` equals the first
1000 characters of that answer — hence equals the answer itself whenever
the answer has at most 1000 characters. -/
theorem C8_final_answer (rounds : Nat → Round) (t : Int) (k : Nat) (ans : Str)
    (hk : k < 15)
    (htools : ∀ j, j < k → isToolResp (rounds j) = true)
    (hfinal : rounds k = .resp { content := some ans, tool_calls := [] }) :
    run_subagent rounds t =
      { status := .completed, completed_at := some t,
        result := some (ans.take 1000), error := none } := by
  have hl : agentLoop rounds = .finished (k + 1) (some ans) := by
    have := loopGo_first_answer rounds { content := some ans, tool_calls := [] }
      k 15 0 (by omega) (fun j hj => by simpa using htools j hj)
      (by simpa using hfinal) (by rfl)
    simpa [agentLoop, max_iterations] using this
  simp [run_subagent, hl]

/-- Witness for C8 (amended) at a concrete provider whose short answer is
stored unchanged. -/
theorem C8_witness :
    run_subagent (fun _ => .resp { content := some ("hi".toList), tool_calls := [] }) 3 =
      { status := .completed, completed_at := some 3,
        result := some ("hi".toList.take 1000), error := none } ∧
    ("hi".toList.take 1000 = ("hi".toList)) :=
  ⟨C8_final_answer _ 3 0 ("hi".toList) (by omega) (fun j hj => by omega) rfl,
   by decide⟩

theorem UInv_init : UInv initUnit := by
  refine ⟨?_, ?_, ?_, ?_, ?_, ?_⟩ <;> simp [UInv, initUnit]

theorem UInv_step {s s2 : UnitState} {e : Ev} (h : UInv s) (hs : stepEv s e = some s2) :
    UInv s2 := by
  obtain ⟨ph, pc, en⟩ := s
  obtain ⟨h1, h2, h3, h4, h5, h6⟩ := h
  cases e with
  | iterate =>
    simp only [stepEv] at hs
    split at hs
    · obtain rfl := Option.some.inj hs
      exact ⟨h1, h2, h3, h4, h5, h6⟩
    · exact Option.noConfusion hs
  | finishOk r t =>
    simp only [stepEv] at hs
    split at hs
    next hc =>
      obtain ⟨hph, hpc⟩ := hc
      obtain rfl := Option.some.inj hs
      have herr := (h4 (h1 hph hpc)).2
      refine ⟨?_, ?_, ?_, ?_, ?_, ?_⟩
      · intro hx; simp at hx
      · intro hx; rw [hpc] at hx; exact Bool.noConfusion hx
      · intro _ _; rfl
      · intro hx; simp at hx
      · intro _; exact ⟨by simp, herr⟩
      · rintro (hx | hx) <;> simp at hx
    next => exact Option.noConfusion hs
  | finishErr e t =>
    simp only [stepEv] at hs
    split at hs
    next hc =>
      obtain ⟨hph, hpc⟩ := hc
      obtain rfl := Option.some.inj hs
      refine ⟨?_, ?_, ?_, ?_, ?_, ?_⟩
      · intro hx; simp at hx
      · intro hx; rw [hpc] at hx; exact Bool.noConfusion hx
      · intro hx; simp at hx
      · intro hx; simp at hx
      · intro hx; simp at hx
      · intro _; simp
    next => exact Option.noConfusion hs
  | observeCancel t =>
    simp only [stepEv] at hs
    split at hs
    next hpc =>
      cases ph with
      | looping =>
        obtain rfl := Option.some.inj hs
        refine ⟨?_, ?_, ?_, ?_, ?_, ?_⟩
        · intro hx; simp at hx
        · intro hx; exact Bool.noConfusion hx
        · intro hx; simp at hx
        · intro hx; simp at hx
        · intro hx; simp at hx
        · intro _; simp
      | annOk =>
        obtain rfl := Option.some.inj hs
        refine ⟨?_, ?_, ?_, ?_, ?_, ?_⟩
        · intro hx; simp at hx
        · intro hx; exact Bool.noConfusion hx
        · intro hx; simp at hx
        · intro hx; simp at hx
        · intro hx; simp at hx
        · intro _; simp
      | annErr =>
        obtain rfl := Option.some.inj hs
        refine ⟨?_, ?_, ?_, ?_, ?_, ?_⟩
        · intro hx; simp at hx
        · intro hx; exact Bool.noConfusion hx
        · intro hx; simp at hx
        · exact h4
        · exact h5
        · exact h6
      | annCancel =>
        obtain rfl := Option.some.inj hs
        refine ⟨?_, ?_, ?_, ?_, ?_, ?_⟩
        · intro hx; simp at hx
        · intro hx; exact Bool.noConfusion hx
        · intro hx; simp at hx
        · exact h4
        · exact h5
        · exact h6
      | ended => exact Option.noConfusion hs
      | torn => exact Option.noConfusion hs
    next => exact Option.noConfusion hs
  | announceOk =>
    simp only [stepEv] at hs
    split at hs
    next hc =>
      obtain ⟨hph, hpc⟩ := hc
      obtain rfl := Option.some.inj hs
      refine ⟨?_, ?_, ?_, ?_, ?_, ?_⟩
      · intro hx; simp at hx
      · intro hx; rw [hpc] at hx; exact Bool.noConfusion hx
      · intro hx; simp at hx
      · exact h4
      · exact h5
      · exact h6
    next => exact Option.noConfusion hs
  | announceRaise e t =>
    simp only [stepEv] at hs
    split at hs
    next hpc =>
      cases ph with
      | annOk =>
        obtain rfl := Option.some.inj hs
        refine ⟨?_, ?_, ?_, ?_, ?_, ?_⟩
        · intro hx; simp at hx
        · intro hx; rw [hpc] at hx; exact Bool.noConfusion hx
        · intro hx; simp at hx
        · intro hx; simp at hx
        · intro hx; simp at hx
        · intro _; simp
      | annErr =>
        obtain rfl := Option.some.inj hs
        refine ⟨?_, ?_, ?_, ?_, ?_, ?_⟩
        · intro hx; simp at hx
        · intro hx; rw [hpc] at hx; exact Bool.noConfusion hx
        · intro hx; simp at hx
        · exact h4
        · exact h5
        · exact h6
      | annCancel =>
        obtain rfl := Option.some.inj hs
        refine ⟨?_, ?_, ?_, ?_, ?_, ?_⟩
        · intro hx; simp at hx
        · intro hx; rw [hpc] at hx; exact Bool.noConfusion hx
        · intro hx; simp at hx
        · exact h4
        · exact h5
        · exact h6
      | looping => exact Option.noConfusion hs
      | ended => exact Option.noConfusion hs
      | torn => exact Option.noConfusion hs
    next => exact Option.noConfusion hs
  | cancelCall t =>
    simp only [stepEv] at hs
    split at hs
    next =>
      obtain rfl := Option.some.inj hs
      exact ⟨h1, h2, h3, h4, h5, h6⟩
    next =>
      obtain rfl := Option.some.inj hs
      refine ⟨?_, ?_, ?_, ?_, ?_, ?_⟩
      · intro _ hx; exact Bool.noConfusion hx
      · intro _; rfl
      · intro _ hx; exact Bool.noConfusion hx
      · intro hx; simp at hx
      · intro hx; simp at hx
      · intro _; simp
  | teardown =>
    simp only [stepEv] at hs
    split at hs
    next hph =>
      obtain rfl := Option.some.inj hs
      refine ⟨?_, ?_, ?_, ?_, ?_, ?_⟩
      · intro hx; simp at hx
      · exact h2
      · intro hx; simp at hx
      · exact h4
      · exact h5
      · exact h6
    next => exact Option.noConfusion hs

theorem UInv_runFrom :
    ∀ (evs : List Ev) (s s2 : UnitState), UInv s → runFrom s evs = some s2 → UInv s2 := by
  intro evs
  induction evs with
  | nil =>
    intro s s2 h hr
    simp only [runFrom] at hr
    obtain rfl := Option.some.inj hr
    exact h
  | cons e es ih =>
    intro s s2 h hr
    simp only [runFrom] at hr
    cases hstep : stepEv s e with
    | none => rw [hstep] at hr; exact Option.noConfusion hr
    | some s1 => rw [hstep] at hr; exact ih s1 s2 (UInv_step h hstep) hr

theorem UInv_runEv (evs : List Ev) (s : UnitState) (h : runEv evs = some s) : UInv s :=
  UInv_runFrom evs initUnit s UInv_init h

/-- Claim C1, counterexample: a task already finalized `completed` is
overwritten to `cancelled` by a `cancel` call that arrives while the
coroutine is suspended in its success announcement (the id is still in
`_running_tasks`, and `cancel` at lines 162-165 never checks the current
status).  The terminal status `completed` is therefore not absorbing,
refuting the claim as stated. -/
theorem C1_counterexample :
    (runEv [Ev.finishOk ("ok".toList) 1]).map (fun u => u.entry.status) =
      some .completed ∧
    (runEv [Ev.finishOk ("ok".toList) 1, Ev.cancelCall 2]).map (fun u => u.entry.status) =
      some .cancelled := by
  constructor <;> rfl

/-- Claim C1 (amended): along every reachable execution, a task's status
never returns to `running`; a terminal status is stable except that
(i) a `cancel` call arriving before the execution unit is removed from
`_running_tasks` overwrites any status with `cancelled`, and (ii) a
failure while announcing a `completed` result overwrites `completed`
with `failed`. -/
theorem C1_status_transitions (evs : List Ev) (s s2 : UnitState) (e : Ev)
    (hreach : runEv evs = some s) (hstep : stepEv s e = some s2) :
    (s2.entry.status = .running → s.entry.status = .running) ∧
    (s.entry.status ≠ .running →
      s2.entry.status = s.entry.status ∨ s2.entry.status = .cancelled ∨
        (s.entry.status = .completed ∧ s2.entry.status = .failed)) := by
  have hI := UInv_runEv evs s hreach
  obtain ⟨ph, pc, en⟩ := s
  obtain ⟨h1, h2, h3, _, _, _⟩ := hI
  cases e with
  | iterate =>
    simp only [stepEv] at hstep
    split at hstep
    · obtain rfl := Option.some.inj hstep
      exact ⟨fun hx => hx, fun _ => Or.inl rfl⟩
    · exact Option.noConfusion hstep
  | finishOk r t =>
    simp only [stepEv] at hstep
    split at hstep
    next hc =>
      obtain ⟨hph, hpc⟩ := hc
      obtain rfl := Option.some.inj hstep
      constructor
      · intro hx; simp at hx
      · intro hne; exact absurd (h1 hph hpc) hne
    next => exact Option.noConfusion hstep
  | finishErr e t =>
    simp only [stepEv] at hstep
    split at hstep
    next hc =>
      obtain ⟨hph, hpc⟩ := hc
      obtain rfl := Option.some.inj hstep
      constructor
      · intro hx; simp at hx
      · intro hne; exact absurd (h1 hph hpc) hne
    next => exact Option.noConfusion hstep
  | observeCancel t =>
    simp only [stepEv] at hstep
    split at hstep
    next hpc =>
      cases ph with
      | looping =>
        obtain rfl := Option.some.inj hstep
        exact ⟨fun hx => by simp at hx, fun _ => Or.inr (Or.inl rfl)⟩
      | annOk =>
        obtain rfl := Option.some.inj hstep
        exact ⟨fun hx => by simp at hx, fun _ => Or.inr (Or.inl rfl)⟩
      | annErr =>
        obtain rfl := Option.some.inj hstep
        exact ⟨fun hx => hx, fun _ => Or.inl rfl⟩
      | annCancel =>
        obtain rfl := Option.some.inj hstep
        exact ⟨fun hx => hx, fun _ => Or.inl rfl⟩
      | ended => exact Option.noConfusion hstep
      | torn => exact Option.noConfusion hstep
    next => exact Option.noConfusion hstep
  | announceOk =>
    simp only [stepEv] at hstep
    split at hstep
    next =>
      obtain rfl := Option.some.inj hstep
      exact ⟨fun hx => hx, fun _ => Or.inl rfl⟩
    next => exact Option.noConfusion hstep
  | announceRaise e t =>
    simp only [stepEv] at hstep
    split at hstep
    next hpc =>
      cases ph with
      | annOk =>
        obtain rfl := Option.some.inj hstep
        constructor
        · intro hx; simp at hx
        · intro _; exact Or.inr (Or.inr ⟨h3 rfl hpc, rfl⟩)
      | annErr =>
        obtain rfl := Option.some.inj hstep
        exact ⟨fun hx => hx, fun _ => Or.inl rfl⟩
      | annCancel =>
        obtain rfl := Option.some.inj hstep
        exact ⟨fun hx => hx, fun _ => Or.inl rfl⟩
      | looping => exact Option.noConfusion hstep
      | ended => exact Option.noConfusion hstep
      | torn => exact Option.noConfusion hstep
    next => exact Option.noConfusion hstep
  | cancelCall t =>
    simp only [stepEv] at hstep
    split at hstep
    next =>
      obtain rfl := Option.some.inj hstep
      exact ⟨fun hx => hx, fun _ => Or.inl rfl⟩
    next =>
      obtain rfl := Option.some.inj hstep
      exact ⟨fun hx => by simp at hx, fun _ => Or.inr (Or.inl rfl)⟩
  | teardown =>
    simp only [stepEv] at hstep
    split at hstep
    next =>
      obtain rfl := Option.some.inj hstep
      exact ⟨fun hx => hx, fun _ => Or.inl rfl⟩
    next => exact Option.noConfusion hstep

/-- Witness for C1 (amended): the concrete overwrite step from the
counterexample trace satisfies the amended transition relation. -/
theorem C1_witness :
    let u1 : UnitState :=
      { phase := .annOk, pendingCancel := false,
        entry := { status := .completed, result := some ("ok".toList),
                   error := none, completed_at := some 1 } }
    let u2 : UnitState :=
      { phase := .annOk, pendingCancel := true,
        entry := { status := .cancelled, result := some ("ok".toList),
                   error := some cancelByUserMsg, completed_at := some 2 } }
    u2.entry.status = u1.entry.status ∨ u2.entry.status = .cancelled ∨
      (u1.entry.status = .completed ∧ u2.entry.status = .failed) := by
  intro u1 u2
  exact (C1_status_transitions [Ev.finishOk ("ok".toList) 1] u1 u2
    (Ev.cancelCall 2) (by decide) (by decide)).2 (by decide)

/-- Claim C2, counterexample: when the bus publish raises while announcing
a task finalized `completed`, the `except Exception` handler at lines
294-300 re-finalizes the task as `failed` — the recorded state does not
survive the failed announcement, refuting the claim as stated. -/
theorem C2_counterexample :
    (runEv [Ev.finishOk ("ok".toList) 1]).map (fun u => u.entry.status) =
      some .completed ∧
    (runEv [Ev.finishOk ("ok".toList) 1, Ev.announceRaise ("boom".toList) 2]).map
        (fun u => u.entry.status) = some .failed := by
  constructor <;> rfl

/-- Claim C2 (amended): a publish failure while announcing a `failed` or
`cancelled` finalization leaves the task's recorded state entirely
unchanged; but a publish failure while announcing a `completed`
finalization re-finalizes the task as `failed` with a truncated error
message (its `result` field is left in place), so a task finalized as
`completed` does not stay `completed` after a failed announcement. -/
theorem C2_announce_failure (evs : List Ev) (s s2 : UnitState) (e : Str) (t : Int)
    (hreach : runEv evs = some s)
    (hstep : stepEv s (Ev.announceRaise e t) = some s2) :
    ((s.phase = .annErr ∨ s.phase = .annCancel) → s2.entry = s.entry) ∧
    (s.phase = .annOk →
      s.entry.status = .completed ∧
      s2.entry.status = .failed ∧
      s2.entry.result = s.entry.result ∧
      s2.entry.error = some (("Error: ".toList ++ e).take 500)) := by
  have hI := UInv_runEv evs s hreach
  obtain ⟨ph, pc, en⟩ := s
  obtain ⟨_, _, h3, _, _, _⟩ := hI
  simp only [stepEv] at hstep
  split at hstep
  next hpc =>
    cases ph with
    | annOk =>
      obtain rfl := Option.some.inj hstep
      constructor
      · rintro (hx | hx) <;> simp at hx
      · intro _; exact ⟨h3 rfl hpc, rfl, rfl, rfl⟩
    | annErr =>
      obtain rfl := Option.some.inj hstep
      constructor
      · intro _; rfl
      · intro hx; simp at hx
    | annCancel =>
      obtain rfl := Option.some.inj hstep
      constructor
      · intro _; rfl
      · intro hx; simp at hx
    | looping => exact Option.noConfusion hstep
    | ended => exact Option.noConfusion hstep
    | torn => exact Option.noConfusion hstep
  next => exact Option.noConfusion hstep

/-- Witness for C2 (amended), instantiated at the counterexample trace. -/
theorem C2_witness :
    let u1 : UnitState :=
      { phase := .annOk, pendingCancel := false,
        entry := { status := .completed, result := some ("ok".toList),
                   error := none, completed_at := some 1 } }
    let u2 : UnitState :=
      { phase := .annErr, pendingCancel := false,
        entry := { status := .failed, result := some ("ok".toList),
                   error := some (("Error: ".toList ++ ("boom".toList)).take 500),
                   completed_at := some 2 } }
    u1.entry.status = .completed ∧ u2.entry.status = .failed ∧
      u2.entry.result = u1.entry.result ∧
      u2.entry.error = some (("Error: ".toList ++ ("boom".toList)).take 500) := by
  intro u1 u2
  exact (C2_announce_failure [Ev.finishOk ("ok".toList) 1] u1 u2
    ("boom".toList) 2 (by decide) (by decide)).2 (by decide)

/-- Claim C3, counterexample: after a `completed` finalization is
overwritten by a late `cancel`, the reachable state has
`status = cancelled` with *both* `result` and `error` set — `result` is
set while the status is not `completed`, refuting the claim as stated. -/
theorem C3_counterexample :
    (runEv [Ev.finishOk ("ok".toList) 1, Ev.cancelCall 2]).map
        (fun u => (u.entry.status, u.entry.result.isSome, u.entry.error.isSome)) =
      some (.cancelled, true, true) := by
  rfl

/-- Claim C3 (amended): at every reachable state, a `running` task has
neither `result` nor `error`; `error` is set exactly when the status is
`failed` or `cancelled`; and a `completed` task always has `result` set
and `error` unset — but `result` may additionally remain set on a
`failed` or `cancelled` task whose earlier `completed` finalization was
overwritten. -/
theorem C3_field_consistency (evs : List Ev) (s : UnitState)
    (hreach : runEv evs = some s) :
    (s.entry.status = .running → s.entry.result = none ∧ s.entry.error = none) ∧
    (s.entry.status = .completed → s.entry.result ≠ none ∧ s.entry.error = none) ∧
    (s.entry.error ≠ none ↔ (s.entry.status = .failed ∨ s.entry.status = .cancelled)) := by
  obtain ⟨_, _, _, h4, h5, h6⟩ := UInv_runEv evs s hreach
  refine ⟨h4, h5, ?_, h6⟩
  intro herr
  cases hst : s.entry.status with
  | running => exact absurd (h4 hst).2 herr
  | completed => exact absurd (h5 hst).2 herr
  | failed => exact Or.inl rfl
  | cancelled => exact Or.inr rfl

/-- Witness for C3 (amended), instantiated at the counterexample trace. -/
theorem C3_witness :
    let u2 : UnitState :=
      { phase := .annOk, pendingCancel := true,
        entry := { status := .cancelled, result := some ("ok".toList),
                   error := some cancelByUserMsg, completed_at := some 2 } }
    u2.entry.error ≠ none ↔ (u2.entry.status = .failed ∨ u2.entry.status = .cancelled) := by
  intro u2
  exact (C3_field_consistency [Ev.finishOk ("ok".toList) 1, Ev.cancelCall 2] u2
    (by decide)).2.2

/-- Claim C4, counterexample: the first `cancel` returns `True` and
transitions the task to `cancelled` (a terminal status), yet an
immediately repeated `cancel` *also* returns `True` — `cancel` has no
suspension point, so the execution unit has not yet processed the
`CancelledError` and the id is still in `_running_tasks` (lines 156-158
test only that map).  This refutes both "returns false whenever the task
is already terminal" and "the second call returns false". -/
theorem C4_counterexample :
    cancelRet initUnit = true ∧
    (stepEv initUnit (Ev.cancelCall 1)).map (fun u => u.entry.status) =
      some .cancelled ∧
    (stepEv initUnit (Ev.cancelCall 1)).map cancelRet = some true := by
  refine ⟨rfl, rfl, rfl⟩

/-- Claim C4 (amended): `cancel` returns `false` exactly when the id is
absent from `_running_tasks`: unknown ids always yield `false` with no
state change; the first `cancel` of a live task returns `true` and
transitions it to `cancelled`; and a repeated `cancel` returns `false`
only once the execution unit has observed the cancellation, finished, and
been removed by the done-callback — at which point it also leaves the
record unchanged. -/
theorem C4_cancel_return (s : MgrState) (tid : Nat) (t : Int)
    (hunknown : s.running_tasks.contains tid = false) :
    mgrCancel s tid t = (false, s) ∧
    (runEv [Ev.cancelCall 1]).map (fun u => (u.entry.status, cancelRet u)) =
      some (.cancelled, true) ∧
    (runEv [Ev.cancelCall 1, Ev.observeCancel 2, Ev.announceOk, Ev.teardown]).map
        cancelRet = some false ∧
    (runEv [Ev.cancelCall 1, Ev.observeCancel 2, Ev.announceOk, Ev.teardown,
            Ev.cancelCall 3]).map (fun u => u.entry) =
      (runEv [Ev.cancelCall 1, Ev.observeCancel 2, Ev.announceOk, Ev.teardown]).map
        (fun u => u.entry) := by
  refine ⟨?_, rfl, rfl, rfl⟩
  simp only [mgrCancel]
  rw [if_neg]
  simpa using hunknown

/-- Witness for C4 (amended) at a concrete registry and unknown id. -/
theorem C4_witness :
    mgrCancel { running_tasks := [4] } 9 0 = (false, { running_tasks := [4] }) ∧
    (runEv [Ev.cancelCall 1]).map (fun u => (u.entry.status, cancelRet u)) =
      some (.cancelled, true) :=
  ⟨(C4_cancel_return { running_tasks := [4] } 9 0 (by decide)).1,
   (C4_cancel_return { running_tasks := [4] } 9 0 (by decide)).2.1⟩

theorem lookupA_mem {β : Type} :
    ∀ (m : List (Nat × β)) (k : Nat) (v : β), lookupA m k = some v → (k, v) ∈ m := by
  intro m
  induction m with
  | nil => intro k v h; exact Option.noConfusion h
  | cons kv rest ih =>
    intro k v h
    obtain ⟨k1, v1⟩ := kv
    simp only [lookupA] at h
    split at h
    next heq =>
      obtain rfl := Option.some.inj h
      subst heq
      exact List.mem_cons_self _ _
    next => exact List.mem_cons_of_mem _ (ih k v h)

theorem lookupA_cancel_map (t : Int) :
    ∀ (m : List (Nat × TaskRec)) (tid k : Nat),
      lookupA (m.map (fun kv =>
        if kv.1 = tid then
          (kv.1, { kv.2 with status := Status.cancelled,
                             completed_at := some t,
                             error := some cancelByUserMsg })
        else kv)) k =
      (if k = tid then
        (lookupA m k).map (fun v =>
          { v with status := Status.cancelled,
                   completed_at := some t,
                   error := some cancelByUserMsg })
      else lookupA m k) := by
  intro m
  induction m with
  | nil =>
    intro tid k
    by_cases h : k = tid <;> simp [lookupA, h]
  | cons kv rest ih =>
    intro tid k
    by_cases h1 : kv.1 = tid
    · by_cases h2 : k = tid
      · subst h2
        simp [lookupA, h1]
      · have h3 : ¬ kv.1 = k := by rw [h1]; exact fun hh => h2 hh.symm
        have h2s : ¬ tid = k := fun hh => h2 hh.symm
        simp [lookupA, h1, h3, h2, h2s, ih]
    · by_cases h3 : kv.1 = k
      · have h2 : ¬ k = tid := by rw [← h3]; exact h1
        simp [lookupA, h1, h3, h2]
      · simp [lookupA, h1, h3, ih]

theorem mgrCancel_running_unchanged (s : MgrState) (tid : Nat) (t : Int) :
    ((mgrCancel s tid t).2).running_tasks = s.running_tasks := by
  simp only [mgrCancel]
  split <;> rfl

theorem statusOf_mgrCancel (s : MgrState) (tid k : Nat) (t : Int) :
    statusOf (mgrCancel s tid t).2 k = statusOf s k ∨
      statusOf (mgrCancel s tid t).2 k = some .cancelled := by
  simp only [mgrCancel]
  split
  · simp only [statusOf]
    rw [lookupA_cancel_map t s.task_states tid k]
    by_cases hk : k = tid
    · rw [if_pos hk]
      cases h : lookupA s.task_states k with
      | none => left; simp
      | some v => right; simp
    · rw [if_neg hk]; left; rfl
  · left; rfl

theorem statusOf_cancelAll_pres (t : Int) :
    ∀ (tids : List Nat) (s : MgrState) (k : Nat),
      statusOf s k ≠ some .running →
      statusOf (cancelAllL s tids t) k ≠ some .running := by
  intro tids
  induction tids with
  | nil => intro s k h; exact h
  | cons a l ih =>
    intro s k h
    have hrw : cancelAllL s (a :: l) t = cancelAllL (mgrCancel s a t).2 l t := rfl
    rw [hrw]
    apply ih
    rcases statusOf_mgrCancel s a k t with he | he
    · rw [he]; exact h
    · rw [he]; simp

theorem regInv_lookup {s : MgrState} {k : Nat} {v : TaskRec}
    (hinv : regInv s = true) (hl : lookupA s.task_states k = some v)
    (hrun : v.status = .running) : s.running_tasks.contains k = true := by
  have hmem := lookupA_mem s.task_states k v hl
  have hall := List.all_eq_true.mp hinv (k, v) hmem
  rw [if_pos hrun] at hall
  exact hall

theorem regInv_mgrCancel {s : MgrState} (tid : Nat) (t : Int)
    (hinv : regInv s = true) : regInv (mgrCancel s tid t).2 = true := by
  simp only [mgrCancel]
  split
  · simp only [regInv]
    apply List.all_eq_true.mpr
    intro kv hkv
    obtain ⟨kv0, hkv0, rfl⟩ := List.mem_map.mp hkv
    by_cases h0 : kv0.1 = tid
    · rw [if_pos h0]
      simp
    · rw [if_neg h0]
      exact List.all_eq_true.mp hinv kv0 hkv0
  · exact hinv

theorem mgrCancel_self_not_running {s : MgrState} (tid : Nat) (t : Int)
    (hinv : regInv s = true) :
    statusOf (mgrCancel s tid t).2 tid ≠ some .running := by
  by_cases hc : s.running_tasks.contains tid = true
  · simp only [mgrCancel]
    rw [if_pos hc]
    simp only [statusOf]
    rw [lookupA_cancel_map t s.task_states tid tid]
    rw [if_pos rfl]
    cases h : lookupA s.task_states tid with
    | none => simp
    | some v => simp
  · have hid : (mgrCancel s tid t).2 = s := by
      simp only [mgrCancel]
      rw [if_neg hc]
    rw [hid]
    intro habs
    cases h : lookupA s.task_states tid with
    | none => rw [statusOf, h] at habs; exact Option.noConfusion habs
    | some v =>
      rw [statusOf, h] at habs
      have hv : v.status = .running := Option.some.inj habs
      exact hc (regInv_lookup hinv h hv)

theorem cancelAll_not_running (t : Int) :
    ∀ (tids : List Nat) (s : MgrState), regInv s = true →
      ∀ tid, tid ∈ tids → statusOf (cancelAllL s tids t) tid ≠ some .running := by
  intro tids
  induction tids with
  | nil => intro s _ tid h; simp at h
  | cons a l ih =>
    intro s hinv tid hmem
    have hrw : cancelAllL s (a :: l) t = cancelAllL (mgrCancel s a t).2 l t := rfl
    rw [hrw]
    rcases List.mem_cons.mp hmem with rfl | hmem2
    · exact statusOf_cancelAll_pres t l _ tid (mgrCancel_self_not_running tid t hinv)
    · exact ih (mgrCancel s a t).2 (regInv_mgrCancel a t hinv) tid hmem2

/-- Claim C5: when `await_group`'s timeout elapses, the manager issues
`cancel` for every member of the group before re-raising the timeout
error; under the registry invariant (a `running` status implies the id is
in `_running_tasks`) no member is left with status `running` in the state
from which the error propagates.  Members still running are flipped to
`cancelled`; already-terminal members stay terminal. -/
theorem C5_group_timeout (s : MgrState) (gid : String) (t : Int)
    (tids : List Nat) (s2 : MgrState)
    (hinv : regInv s = true)
    (hg : lookupG s.parallel_groups gid = some tids)
    (hrun : await_group_on_timeout s gid t = some s2) :
    ∀ tid, tid ∈ tids → statusOf s2 tid ≠ some .running := by
  simp only [await_group_on_timeout] at hrun
  rw [hg] at hrun
  obtain rfl := Option.some.inj hrun
  exact cancelAll_not_running t tids s hinv

/-- Witness for C5 at a concrete group with one running and one completed
member. -/
theorem C5_witness :
    regInv grpState = true ∧
    statusOf (cancelAllL grpState [1, 2] 50) 1 ≠ some .running ∧
    statusOf (cancelAllL grpState [1, 2] 50) 2 ≠ some .running := by
  refine ⟨by decide, ?_, ?_⟩
  · exact C5_group_timeout grpState ("g") 50 [1, 2] (cancelAllL grpState [1, 2] 50)
      (by decide) (by decide) rfl 1 (by decide)
  · exact C5_group_timeout grpState ("g") 50 [1, 2] (cancelAllL grpState [1, 2] 50)
      (by decide) (by decide) rfl 2 (by decide)

theorem lookupG_setG {β : Type} :
    ∀ (m : List (String × β)) (k : String) (v : β), lookupG (setG m k v) k = some v := by
  intro m
  induction m with
  | nil => intro k v; simp [setG, lookupG]
  | cons kv rest ih =>
    intro k v
    by_cases h : kv.1 = k
    · simp [setG, h, lookupG]
    · simp only [setG, h, if_false, lookupG]
      exact ih k v

/-- Claim C6, counterexample: calling `create_parallel_group` with a
`group_id` that is already in use does not fail — it succeeds and silently
replaces the existing group's membership `[0]` with the newly spawned
ids `[5, 6]` (line 562 assigns unconditionally; there is no check and no
exception path in lines 518-564). -/
theorem C6_counterexample :
    lookupG dupGrpState.parallel_groups ("g") = some [0] ∧
    (create_parallel_group dupGrpState ("g") [{}, {}]).2 = [5, 6] ∧
    lookupG (create_parallel_group dupGrpState ("g") [{}, {}]).1.parallel_groups ("g") =
      some [5, 6] := by
  refine ⟨rfl, rfl, rfl⟩

/-- Claim C6 (amended): `create_parallel_group` performs no uniqueness
check on `group_id`: for *every* prior state — including one where the
group id is already in use — it succeeds and maps the id to exactly the
newly spawned task ids, silently replacing any existing membership. -/
theorem C6_group_overwrite (s : MgrState) (gid : String) (specs : List SpawnSpec) :
    lookupG (create_parallel_group s gid specs).1.parallel_groups gid =
      some (create_parallel_group s gid specs).2 :=
  lookupG_setG _ gid _

theorem chain_go_props (outcome : Nat → Str → TaskRec) :
    ∀ (specs : List ChainSpec) (i : Nat) (prev : Option Str),
      (spawn_chain_go outcome specs i prev).2 =
        (spawn_chain_go outcome specs i prev).1.length ∧
      (spawn_chain_go outcome specs i prev).1.length ≤ specs.length ∧
      (∀ r, r ∈ (spawn_chain_go outcome specs i prev).1 → r.status ≠ .completed →
        (spawn_chain_go outcome specs i prev).1.getLast? = some r) := by
  intro specs
  induction specs with
  | nil =>
    intro i prev
    refine ⟨rfl, by simp [spawn_chain_go], ?_⟩
    intro r hr
    simp [spawn_chain_go] at hr
  | cons sp rest ih =>
    intro i prev
    by_cases hst : (outcome i (chainDesc prev sp)).status = .completed
    · have hrw : spawn_chain_go outcome (sp :: rest) i prev =
          ((outcome i (chainDesc prev sp)) ::
             (spawn_chain_go outcome rest (i + 1) (outcome i (chainDesc prev sp)).result).1,
           (spawn_chain_go outcome rest (i + 1) (outcome i (chainDesc prev sp)).result).2 + 1) := by
        simp only [spawn_chain_go]
        rw [if_pos hst]
      obtain ⟨ih1, ih2, ih3⟩ := ih (i + 1) (outcome i (chainDesc prev sp)).result
      rw [hrw]
      refine ⟨?_, ?_, ?_⟩
      · simp only [List.length_cons]
        omega
      · simp only [List.length_cons]
        omega
      · intro r hr hrne
        rcases List.mem_cons.mp hr with heq | hmem
        · rw [heq] at hrne
          exact absurd hst hrne
        · have hlast := ih3 r hmem hrne
          cases hq : (spawn_chain_go outcome rest (i + 1)
              (outcome i (chainDesc prev sp)).result).1 with
          | nil => rw [hq] at hmem; simp at hmem
          | cons b l =>
            rw [hq] at hlast
            dsimp only
            rw [List.getLast?_cons_cons]
            exact hlast
    · have hrw : spawn_chain_go outcome (sp :: rest) i prev =
          ([outcome i (chainDesc prev sp)], 1) := by
        simp only [spawn_chain_go]
        rw [if_neg hst]
      rw [hrw]
      refine ⟨rfl, by simp, ?_⟩
      intro r hr _
      have := List.mem_singleton.mp hr
      rw [this]
      rfl

/-- Claim C7: a chain spawns exactly one task per gathered record, never
gathers more records than it has specs, and any record finalized with a
status other than `completed` is the *last* record returned — the chain
halts there, so for a chain `[A, B, C]` in which `B` fails, `C` is never
spawned and the returned list has length 2. -/
theorem C7_chain_halts (specs : List ChainSpec) (outcome : Nat → Str → TaskRec) :
    spawn_chain_count specs outcome = (spawn_chain specs outcome).length ∧
    (spawn_chain specs outcome).length ≤ specs.length ∧
    (∀ r, r ∈ spawn_chain specs outcome → r.status ≠ .completed →
      (spawn_chain specs outcome).getLast? = some r) :=
  chain_go_props outcome specs 0 none

/-- Witness for C7: the concrete chain `[A, B, C]` with `B` failing
returns exactly 2 records, spawns exactly 2 tasks, and its failed record
is the last one. -/
theorem C7_witness :
    spawn_chain_count chainABC chainOutcomeBFails =
      (spawn_chain chainABC chainOutcomeBFails).length ∧
    (spawn_chain chainABC chainOutcomeBFails).length = 2 ∧
    (spawn_chain chainABC chainOutcomeBFails).getLast? =
      some { status := .failed, error := some ("e".toList), completed_at := some 1 } := by
  refine ⟨(C7_chain_halts chainABC chainOutcomeBFails).1, by decide, ?_⟩
  exact (C7_chain_halts chainABC chainOutcomeBFails).2.2
    { status := .failed, error := some ("e".toList), completed_at := some 1 }
    (by decide) (by decide)

/-- Claim C10: every call to `get_running_tasks` prunes the registry as a
side effect — every entry that is not `running` and whose `completed_at`
is unset or more than one hour before `now` is removed, entries with
status `running` are always retained, and the returned list is exactly
the values of the registry *after* this pruning (whose other fields are
untouched); listing is therefore not a pure snapshot. -/
theorem C10_prune_effect (s : MgrState) (t : Int) :
    (∀ kv, kv ∈ s.task_states → kv.2.status ≠ .running →
        (kv.2.completed_at = none ∨ (∃ c, kv.2.completed_at = some c ∧ c < t - 3600)) →
        kv ∉ (get_running_tasks s t).2.task_states) ∧
    (∀ kv, kv ∈ s.task_states → kv.2.status = .running →
        kv ∈ (get_running_tasks s t).2.task_states) ∧
    (get_running_tasks s t).1 =
      (get_running_tasks s t).2.task_states.map (fun kv => kv.2) ∧
    (get_running_tasks s t).2.task_states =
      s.task_states.filter (fun kv => keepEntry t kv.2) ∧
    (get_running_tasks s t).2.running_tasks = s.running_tasks ∧
    (get_running_tasks s t).2.parallel_groups = s.parallel_groups := by
  refine ⟨?_, ?_, rfl, rfl, rfl, rfl⟩
  · intro kv hmem hstatus hold hcontra
    have hkeep := (List.mem_filter.mp hcontra).2
    simp only [keepEntry] at hkeep
    rw [if_neg hstatus] at hkeep
    rcases hold with hnone | ⟨c, hc, hlt⟩
    · rw [hnone] at hkeep
      exact Bool.noConfusion hkeep
    · rw [hc] at hkeep
      simp only [decide_eq_true_eq] at hkeep
      omega
  · intro kv hmem hstatus
    refine List.mem_filter.mpr ⟨hmem, ?_⟩
    simp [keepEntry, hstatus]

/-- Witness for C10 at a concrete registry and `now = 10000`: the stale
completed entry is pruned away, the running entry survives, and the
returned list reflects the pruned registry. -/
theorem C10_witness :
    (2, ({ status := .completed, completed_at := some 0 } : TaskRec)) ∉
      (get_running_tasks pruneState 10000).2.task_states ∧
    (1, ({} : TaskRec)) ∈ (get_running_tasks pruneState 10000).2.task_states ∧
    (get_running_tasks pruneState 10000).1 =
      (get_running_tasks pruneState 10000).2.task_states.map (fun kv => kv.2) := by
  refine ⟨?_, ?_, (C10_prune_effect pruneState 10000).2.2.1⟩
  · exact (C10_prune_effect pruneState 10000).1 _ (by decide) (by decide)
      (Or.inr ⟨0, rfl, by decide⟩)
  · exact (C10_prune_effect pruneState 10000).2.1 _ (by decide) rfl

end Nanobot
